import Mathlib

/-!
# Verification of `resource_pool<T>` (src/resource_pool.h)

Shallow embedding of the resource pool from `src/resource_pool.h`. The pool
holds a fixed vector of slots; each slot is either empty (`present = false`,
the C++ `resources[i] == nullptr`) or holds a constructed instance with an
`in_use` flag (the C++ `resource::inUse`). The counter `haveResources`
mirrors the C++ `int haveResources`; `stop` mirrors `bool stop`.

The embedding is sequential: each operation is a function on the pool state,
mirroring the body of the corresponding C++ member executed under the pool's
mutex. An `acquire` call that would block on the condition variable (not
stopped and `haveResources <= 0`, so the wait predicate
`haveResources > 0 || stop` is false) is modelled by the outcome `blocked`
with the state unchanged. The factory `fn_new` is external; `acquire` takes
a flag saying whether the factory call, if made, succeeds or throws, and the
ghost field `factoryCalls` counts its invocations.
-/

namespace ResourcePool

/-- One slot of the C++ `std::vector<std::shared_ptr<resource>> resources`:
`present = false` models `resources[i] == nullptr`, and `inUse` models the
`inUse` flag of the pointed-to `resource` object. -/
structure Slot where
  present : Bool
  inUse : Bool
deriving DecidableEq, Repr

instance : Inhabited Slot := ⟨⟨false, false⟩⟩

/-- The pool state: the slot vector, the C++ `int haveResources` counter,
the `bool stop` flag, and a ghost counter of factory invocations. -/
structure PoolState where
  slots : List Slot
  haveResources : Int
  stop : Bool
  factoryCalls : Nat
deriving DecidableEq, Repr

/-- The constructor `resource_pool(size_, new_fn)`: the member `size` is
initialised to `std::max<size_t>(size_, 1)`; `haveResources(size)` reads that
already-initialised member (members initialise in declaration order), so the
counter also gets the clamped value; the loop pushes `size` null pointers;
`stop` is `false`; the factory is not invoked. -/
def mkPool (size_ : Nat) : PoolState :=
  { slots := List.replicate (max size_ 1) ⟨false, false⟩
    haveResources := (max size_ 1 : Nat)
    stop := false
    factoryCalls := 0 }

/-- The loop condition of `acquire`'s scan: slot `i` is picked when
`resources[i] == nullptr` or `!resources[i]->inUse`. -/
def isFree (sl : Slot) : Bool := !sl.present || !sl.inUse

/-- Index of the first slot the `for` loop in `acquire` stops at (first `i`
with `resources[i] == nullptr || !resources[i]->inUse`), if any. -/
def findFree : List Slot → Option Nat
  | [] => none
  | sl :: rest => if isFree sl then some 0 else (findFree rest).map (· + 1)

/-- Outcome of one `acquire()` call. `handle i` is a non-null
`shared_ptr<resource>` bound to slot `i`; `unavailable` is a returned
`nullptr`; `blocked` means the call is suspended in `condition.wait`;
`thrown` means the factory call threw and the exception propagated to the
caller. -/
inductive AcquireOutcome where
  | handle (i : Nat)
  | unavailable
  | blocked
  | thrown
deriving DecidableEq, Repr

/-- The body of `acquire()`. The fast path returns `nullptr` if `stop`;
then `condition.wait(guard, haveResources > 0 || stop)` — sequentially
`stop` is still false there, so the call blocks exactly when
`haveResources <= 0`; then the scan claims the first free slot, creating
the instance via the factory when the slot is null (`factoryOk` says
whether that factory call succeeds; on a throw the exception leaves
`acquire` before `resources[i]` is assigned and before `haveResources--`);
finally `haveResources--` runs unconditionally, even when the scan found
no slot and the returned pointer is null. -/
def acquire (factoryOk : Bool) (s : PoolState) : AcquireOutcome × PoolState :=
  if s.stop then
    (.unavailable, s)
  else if s.haveResources ≤ 0 then
    (.blocked, s)
  else
    match findFree s.slots with
    | none => (.unavailable, { s with haveResources := s.haveResources - 1 })
    | some i =>
      if (s.slots.getD i default).present then
        (.handle i, { s with
          slots := s.slots.set i { s.slots.getD i default with inUse := true }
          haveResources := s.haveResources - 1 })
      else if factoryOk then
        (.handle i, { s with
          slots := s.slots.set i ⟨true, true⟩
          haveResources := s.haveResources - 1
          factoryCalls := s.factoryCalls + 1 })
      else
        (.thrown, { s with factoryCalls := s.factoryCalls + 1 })

/-- The body of `release(raw_resource)` for a handle of this pool. A handle
is identified by its slot index (`none` is a null `shared_ptr`). The code
returns silently when the pointer is null or `!raw_resource->inUse`;
otherwise it clears `inUse` and increments `haveResources`. -/
def release (s : PoolState) (h : Option Nat) : PoolState :=
  match h with
  | none => s
  | some i =>
    match s.slots.get? i with
    | none => s
    | some sl =>
      if sl.inUse then
        { s with
          slots := s.slots.set i { sl with inUse := false }
          haveResources := s.haveResources + 1 }
      else s

/-- The body of `release(raw_resource)` when the handle was produced by a
different pool `q` of the same instantiated type: the code dereferences
`raw_resource->inUse` (a slot of `q`) but increments `this->haveResources`
(a member of `p`); it never compares the handle's pool against `this`.
Returns the pair (new state of `p`, new state of `q`). -/
def releaseForeign (p q : PoolState) (i : Nat) : PoolState × PoolState :=
  match q.slots.get? i with
  | none => (p, q)
  | some sl =>
    if sl.inUse then
      ({ p with haveResources := p.haveResources + 1 },
       { q with slots := q.slots.set i { sl with inUse := false } })
    else (p, q)

/-- The body of `resourcesAvailable()`: returns `haveResources`. -/
def resourcesAvailable (s : PoolState) : Int := s.haveResources

/-- The body of `shutdown()`: sets `stop = true` (and notifies all waiters,
which has no sequential-state effect). -/
def shutdown (s : PoolState) : PoolState := { s with stop := true }

/-- Number of slots the `acquire` scan can pick (null or not in use). -/
def freeCount (s : PoolState) : Nat := s.slots.countP isFree

/-- Number of slots whose instance has been constructed. -/
def presentCount (s : PoolState) : Nat := s.slots.countP (·.present)

/-- The pool's internal consistency invariant: `haveResources` equals the
number of free slots, a slot in use always holds a constructed instance,
and the factory has been invoked once per constructed instance. -/
def Inv (s : PoolState) : Prop :=
  s.haveResources = (freeCount s : Int)
    ∧ (∀ sl ∈ s.slots, sl.inUse = true → sl.present = true)
    ∧ s.factoryCalls = presentCount s

instance (s : PoolState) : Decidable (Inv s) := by
  unfold Inv
  infer_instance

/-- States reachable from `mkPool n` by any sequence of completed
`acquire()` calls (with a succeeding factory), `release` of any handle
(in particular every handle previously returned by this pool), and
`shutdown()`. -/
inductive Reachable (n : Nat) : PoolState → Prop where
  | init : Reachable n (mkPool n)
  | acq {s : PoolState} : Reachable n s → Reachable n (acquire true s).2
  | rel {s : PoolState} (h : Option Nat) : Reachable n s → Reachable n (release s h)
  | shut {s : PoolState} : Reachable n s → Reachable n (shutdown s)

theorem findFree_lt {l : List Slot} {i : Nat} (h : findFree l = some i) :
    i < l.length := by
  induction l generalizing i with
  | nil => simp [findFree] at h
  | cons sl rest ih =>
    by_cases hf : isFree sl
    · simp [findFree, hf] at h
      subst h
      simp
    · simp [findFree, hf] at h
      obtain ⟨j, hj, rfl⟩ := h
      simpa using ih hj

theorem findFree_free {l : List Slot} {i : Nat} (h : findFree l = some i) :
    isFree (l.getD i default) = true := by
  induction l generalizing i with
  | nil => simp [findFree] at h
  | cons sl rest ih =>
    by_cases hf : isFree sl
    · simp [findFree, hf] at h
      subst h
      simpa using hf
    · simp [findFree, hf] at h
      obtain ⟨j, hj, rfl⟩ := h
      simpa using ih hj

theorem findFree_min {l : List Slot} {i : Nat} (h : findFree l = some i) :
    ∀ j, j < i → isFree (l.getD j default) = false := by
  induction l generalizing i with
  | nil => simp [findFree] at h
  | cons sl rest ih =>
    by_cases hf : isFree sl
    · simp [findFree, hf] at h
      omega
    · simp [findFree, hf] at h
      obtain ⟨j0, hj0, rfl⟩ := h
      intro j hj
      cases j with
      | zero => simpa using hf
      | succ k => simpa using ih hj0 k (by omega)

theorem findFree_exists {l : List Slot} (h : 0 < l.countP isFree) :
    ∃ i, findFree l = some i := by
  induction l with
  | nil => simp at h
  | cons sl rest ih =>
    by_cases hf : isFree sl
    · exact ⟨0, by simp [findFree, hf]⟩
    · rw [List.countP_cons_of_neg isFree rest hf] at h
      obtain ⟨j, hj⟩ := ih h
      exact ⟨j + 1, by simp [findFree, hf, hj]⟩

theorem countP_set (p : Slot → Bool) :
    ∀ (l : List Slot) (i : Nat) (x : Slot), i < l.length →
      (l.set i x).countP p + (if p (l.getD i default) then 1 else 0) =
        l.countP p + (if p x then 1 else 0)
  | [], i, x, h => by simp at h
  | a :: l, 0, x, h => by
    simp only [List.set_cons_zero, List.getD_cons_zero, List.countP_cons]
    omega
  | a :: l, i + 1, x, h => by
    have ih := countP_set p l i x (Nat.lt_of_succ_lt_succ h)
    simp only [List.set_cons_succ, List.getD_cons_succ, List.countP_cons]
    omega

theorem acquire_stopped (ok : Bool) {s : PoolState} (h : s.stop = true) :
    acquire ok s = (.unavailable, s) := by
  unfold acquire
  rw [if_pos h]

theorem acquire_blocked (ok : Bool) {s : PoolState} (h1 : s.stop = false)
    (h2 : s.haveResources ≤ 0) :
    acquire ok s = (.blocked, s) := by
  unfold acquire
  rw [if_neg (by simp [h1]), if_pos h2]

theorem acquire_found (ok : Bool) {s : PoolState} {i : Nat}
    (hstop : s.stop = false) (hpos : 0 < s.haveResources)
    (hfind : findFree s.slots = some i) :
    acquire ok s =
      if (s.slots.getD i default).present then
        (.handle i, { s with
          slots := s.slots.set i { s.slots.getD i default with inUse := true }
          haveResources := s.haveResources - 1 })
      else if ok then
        (.handle i, { s with
          slots := s.slots.set i ⟨true, true⟩
          haveResources := s.haveResources - 1
          factoryCalls := s.factoryCalls + 1 })
      else
        (.thrown, { s with factoryCalls := s.factoryCalls + 1 }) := by
  unfold acquire
  rw [if_neg (by simp [hstop]), if_neg (by omega), hfind]

theorem inv_mkPool (n : Nat) : Inv (mkPool n) := by
  refine ⟨?_, ?_, ?_⟩
  · simp [mkPool, freeCount, List.countP_replicate, isFree]
  · intro sl hsl
    simp only [mkPool] at hsl
    have := List.eq_of_mem_replicate hsl
    subst this
    simp
  · simp [mkPool, presentCount, List.countP_replicate]

theorem inv_shutdown {s : PoolState} (h : Inv s) : Inv (shutdown s) := h

theorem inv_acquire {s : PoolState} (h : Inv s) : Inv (acquire true s).2 := by
  obtain ⟨h1, h2, h3⟩ := h
  by_cases hstop : s.stop
  · rw [acquire_stopped true hstop]
    exact ⟨h1, h2, h3⟩
  have hstop' : s.stop = false := by simpa using hstop
  by_cases hle : s.haveResources ≤ 0
  · rw [acquire_blocked true hstop' hle]
    exact ⟨h1, h2, h3⟩
  have hpos : 0 < s.haveResources := by omega
  have hfc : 0 < s.slots.countP isFree := by
    unfold freeCount at h1
    omega
  obtain ⟨i, hfind⟩ := findFree_exists hfc
  have hlt := findFree_lt hfind
  have hfree := findFree_free hfind
  rw [acquire_found true hstop' hpos hfind]
  by_cases hp : (s.slots.getD i default).present
  · rw [if_pos hp]
    refine ⟨?_, ?_, ?_⟩
    · have hc := countP_set isFree s.slots i { s.slots.getD i default with inUse := true } hlt
      have hxfree : isFree { s.slots.getD i default with inUse := true } = false := by
        simp only [isFree]
        rw [hp]
        decide
      rw [hfree, hxfree] at hc
      simp only [if_true, Bool.false_eq_true, if_false] at hc
      unfold freeCount at h1 ⊢
      dsimp only
      omega
    · intro t ht hut
      rcases List.mem_or_eq_of_mem_set ht with hmem | rfl
      · exact h2 t hmem hut
      · exact hp
    · have hc := countP_set (·.present) s.slots i { s.slots.getD i default with inUse := true } hlt
      unfold presentCount at h3 ⊢
      dsimp only
      dsimp only at hc
      omega
  · rw [if_neg hp, if_pos rfl]
    refine ⟨?_, ?_, ?_⟩
    · have hc := countP_set isFree s.slots i ⟨true, true⟩ hlt
      have hxfree : isFree (⟨true, true⟩ : Slot) = false := by
        simp [isFree]
      rw [hfree, hxfree] at hc
      simp only [if_true, Bool.false_eq_true, if_false] at hc
      unfold freeCount at h1 ⊢
      dsimp only
      omega
    · intro t ht hut
      rcases List.mem_or_eq_of_mem_set ht with hmem | rfl
      · exact h2 t hmem hut
      · rfl
    · have hc := countP_set (·.present) s.slots i ⟨true, true⟩ hlt
      have hpp : (s.slots.getD i default).present = false := by simpa using hp
      dsimp only at hc
      rw [hpp] at hc
      simp only [Bool.false_eq_true, if_false, if_true] at hc
      unfold presentCount at h3 ⊢
      dsimp only
      omega

theorem inv_release {s : PoolState} (hand : Option Nat) (h : Inv s) :
    Inv (release s hand) := by
  obtain ⟨h1, h2, h3⟩ := h
  match hand with
  | none => exact ⟨h1, h2, h3⟩
  | some i =>
    cases hget : s.slots.get? i with
    | none =>
      simp only [release, hget]
      exact ⟨h1, h2, h3⟩
    | some sl =>
      by_cases hu : sl.inUse
      · have hmem := List.get?_mem hget
        have hpres := h2 sl hmem hu
        have hlt : i < s.slots.length := by
          obtain ⟨hl, _⟩ := List.get?_eq_some.mp hget
          exact hl
        have hgetD : s.slots.getD i default = sl := by
          simp [List.getD_eq_getElem?_getD, ← List.get?_eq_getElem?, hget]
        simp only [release, hget]
        rw [if_pos hu]
        refine ⟨?_, ?_, ?_⟩
        · have hc := countP_set isFree s.slots i { sl with inUse := false } hlt
          rw [hgetD] at hc
          have hslfree : isFree sl = false := by simp [isFree, hu, hpres]
          have hxfree : isFree { sl with inUse := false } = true := by simp [isFree]
          rw [hslfree, hxfree] at hc
          simp only [if_true, Bool.false_eq_true, if_false] at hc
          unfold freeCount at h1 ⊢
          dsimp only
          omega
        · intro t ht hut
          rcases List.mem_or_eq_of_mem_set ht with hmem' | rfl
          · exact h2 t hmem' hut
          · simpa using hpres
        · have hc := countP_set (·.present) s.slots i { sl with inUse := false } hlt
          rw [hgetD] at hc
          unfold presentCount at h3 ⊢
          dsimp only
          dsimp only at hc
          omega
      · simp only [release, hget]
        rw [if_neg hu]
        exact ⟨h1, h2, h3⟩

theorem slots_length_acquire (ok : Bool) (s : PoolState) :
    (acquire ok s).2.slots.length = s.slots.length := by
  unfold acquire
  repeat' split
  all_goals simp

theorem slots_length_release (s : PoolState) (hand : Option Nat) :
    (release s hand).slots.length = s.slots.length := by
  unfold release
  repeat' split
  all_goals simp

theorem stop_acquire (ok : Bool) (s : PoolState) :
    (acquire ok s).2.stop = s.stop := by
  unfold acquire
  repeat' split
  all_goals rfl

theorem stop_release (s : PoolState) (hand : Option Nat) :
    (release s hand).stop = s.stop := by
  unfold release
  repeat' split
  all_goals rfl

theorem reachable_inv {n : Nat} {s : PoolState} (h : Reachable n s) :
    Inv s ∧ s.slots.length = max n 1 := by
  induction h with
  | init => exact ⟨inv_mkPool n, by simp [mkPool]⟩
  | acq _ ih => exact ⟨inv_acquire ih.1, (slots_length_acquire true _).trans ih.2⟩
  | rel hand _ ih => exact ⟨inv_release hand ih.1, (slots_length_release _ hand).trans ih.2⟩
  | shut _ ih => exact ⟨inv_shutdown ih.1, ih.2⟩

theorem acquire_nofree (ok : Bool) {s : PoolState} (h1 : s.stop = false)
    (h2 : 0 < s.haveResources) (hf : findFree s.slots = none) :
    acquire ok s = (.unavailable, { s with haveResources := s.haveResources - 1 }) := by
  unfold acquire
  rw [if_neg (by simp [h1]), if_neg (by omega), hf]

/-- C1: for every pool constructed with capacity `n ≥ 1` and every finite
sequence of `acquire()` and `release(h)` calls (in particular every `h`
previously returned by `acquire()` of this same pool), the counter returned
by `available_count()` satisfies `0 ≤ available_count() ≤ n` at every point
of the sequence. -/
theorem available_count_in_range (n : Nat) (s : PoolState)
    (hn : 1 ≤ n) (hr : Reachable n s) :
    0 ≤ resourcesAvailable s ∧ resourcesAvailable s ≤ (n : Int) := by
  obtain ⟨⟨h1, _, _⟩, hlen⟩ := reachable_inv hr
  have hle : s.slots.countP isFree ≤ s.slots.length := List.countP_le_length isFree
  rw [hlen] at hle
  unfold freeCount at h1
  unfold resourcesAvailable
  omega

theorem available_count_in_range_witness :
    0 ≤ resourcesAvailable (acquire true (mkPool 3)).2 ∧
      resourcesAvailable (acquire true (mkPool 3)).2 ≤ (3 : Int) :=
  available_count_in_range 3 (acquire true (mkPool 3)).2 (by decide)
    (Reachable.acq Reachable.init)

/-- C2: in every consistent pool state with `stopped = false` and
`available > 0`, `acquire()` claims the first slot in index order that is
free (absent instance or `in_use = false`): every earlier slot is not free,
the claimed slot ends up constructed and `in_use = true`, `available` drops
by exactly 1, a non-empty handle bound to that slot is returned, and the
factory is invoked exactly once when the instance was absent and not at all
when it was present. -/
theorem acquire_claims_first_free_slot (s : PoolState)
    (hInv : Inv s) (hstop : s.stop = false)
    (havail : 0 < resourcesAvailable s) :
    ∃ i, findFree s.slots = some i ∧
      (∀ j, j < i → isFree (s.slots.getD j default) = false) ∧
      isFree (s.slots.getD i default) = true ∧
      (acquire true s).1 = AcquireOutcome.handle i ∧
      (acquire true s).2.haveResources = s.haveResources - 1 ∧
      (acquire true s).2.slots.get? i = some ⟨true, true⟩ ∧
      ((s.slots.getD i default).present = true →
        (acquire true s).2.factoryCalls = s.factoryCalls) ∧
      ((s.slots.getD i default).present = false →
        (acquire true s).2.factoryCalls = s.factoryCalls + 1) := by
  obtain ⟨h1, h2, h3⟩ := hInv
  have hpos : 0 < s.haveResources := havail
  have hfc : 0 < s.slots.countP isFree := by
    unfold freeCount at h1
    omega
  obtain ⟨i, hfind⟩ := findFree_exists hfc
  have hlt := findFree_lt hfind
  refine ⟨i, hfind, findFree_min hfind, findFree_free hfind, ?_⟩
  rw [acquire_found true hstop hpos hfind]
  by_cases hp : (s.slots.getD i default).present
  · rw [if_pos hp]
    have hx : ({ s.slots.getD i default with inUse := true } : Slot) = ⟨true, true⟩ := by
      show Slot.mk (s.slots.getD i default).present true = Slot.mk true true
      rw [hp]
    refine ⟨rfl, rfl, ?_, fun _ => rfl, ?_⟩
    · dsimp only
      rw [hx]
      rw [List.get?_eq_getElem?]
      exact List.getElem?_set_self hlt
    · intro habs
      rw [hp] at habs
      simp at habs
  · rw [if_neg hp, if_pos rfl]
    refine ⟨rfl, rfl, ?_, ?_, fun _ => rfl⟩
    · dsimp only
      rw [List.get?_eq_getElem?]
      exact List.getElem?_set_self hlt
    · intro habs
      rw [habs] at hp
      simp at hp

theorem acquire_claims_first_free_slot_witness :
    ∃ i, findFree (mkPool 3).slots = some i ∧
      (∀ j, j < i → isFree ((mkPool 3).slots.getD j default) = false) ∧
      isFree ((mkPool 3).slots.getD i default) = true ∧
      (acquire true (mkPool 3)).1 = AcquireOutcome.handle i ∧
      (acquire true (mkPool 3)).2.haveResources = (mkPool 3).haveResources - 1 ∧
      (acquire true (mkPool 3)).2.slots.get? i = some ⟨true, true⟩ ∧
      (((mkPool 3).slots.getD i default).present = true →
        (acquire true (mkPool 3)).2.factoryCalls = (mkPool 3).factoryCalls) ∧
      (((mkPool 3).slots.getD i default).present = false →
        (acquire true (mkPool 3)).2.factoryCalls = (mkPool 3).factoryCalls + 1) :=
  acquire_claims_first_free_slot (mkPool 3) (by decide) rfl (by decide)

/-- C3: `release` of a null handle, and `release` of a handle whose slot
already has `in_use = false` (a second, double release), is a silent no-op
that leaves the pool state unchanged; concretely with capacity 3: `acquire`
gives the handle of slot 0 and the count drops to 2, releasing it restores
3, and releasing it a second time leaves 3 (not 4). -/
theorem release_idempotent_noop :
    (∀ s : PoolState, release s none = s) ∧
    (∀ (s : PoolState) (i : Nat) (sl : Slot),
      s.slots.get? i = some sl → sl.inUse = false → release s (some i) = s) ∧
    ((acquire true (mkPool 3)).1 = AcquireOutcome.handle 0 ∧
      resourcesAvailable (acquire true (mkPool 3)).2 = 2 ∧
      resourcesAvailable (release (acquire true (mkPool 3)).2 (some 0)) = 3 ∧
      resourcesAvailable
        (release (release (acquire true (mkPool 3)).2 (some 0)) (some 0)) = 3) := by
  refine ⟨fun s => rfl, ?_, by decide⟩
  intro s i sl hget hu
  simp only [release, hget]
  rw [if_neg (by simp [hu])]

theorem release_idempotent_noop_witness :
    release (mkPool 2) (some 0) = mkPool 2 :=
  release_idempotent_noop.2.1 (mkPool 2) 0 ⟨false, false⟩ (by decide) (by decide)

/-- C4, counterexample: releasing on pool `P` a foreign in-use handle (here
the handle of slot 0 of a second capacity-1 pool that has been acquired) is
not a no-op on `P`: it increments `P`'s available counter. -/
theorem foreign_release_mutates_pool :
    (releaseForeign (mkPool 1) (acquire true (mkPool 1)).2 0).1.haveResources ≠
      (mkPool 1).haveResources := by decide

/-- C4, amended: `release` never checks handle ownership. Releasing on `P` a
foreign handle of pool `Q` is a silent no-op only when the handle is empty
or its slot has `in_use = false`; when the foreign slot is in use, `release`
clears that slot's `in_use` flag (mutating `Q`) and increments `P`'s
available counter. -/
theorem foreign_release_behavior (p q : PoolState) (i : Nat) (sl : Slot)
    (hget : q.slots.get? i = some sl) :
    (sl.inUse = false → releaseForeign p q i = (p, q)) ∧
    (sl.inUse = true →
      releaseForeign p q i =
        ({ p with haveResources := p.haveResources + 1 },
         { q with slots := q.slots.set i { sl with inUse := false } })) := by
  constructor
  · intro hu
    simp only [releaseForeign, hget]
    rw [if_neg (by simp [hu])]
  · intro hu
    simp only [releaseForeign, hget]
    rw [if_pos hu]

theorem foreign_release_behavior_witness :
    releaseForeign (mkPool 1) (mkPool 2) 0 = (mkPool 1, mkPool 2) :=
  (foreign_release_behavior (mkPool 1) (mkPool 2) 0 ⟨false, false⟩ (by decide)).1 rfl

/-- C5: `shutdown()` sets `stop` to `true`; no `acquire` or `release`
changes `stop`, so it stays `true` for the rest of the pool's life; and on
every pool state with `stop = true` an `acquire()` call — whatever the
factory would do and whatever the value of `available` — returns
`unavailable` immediately (it does not block) and leaves the state
unchanged. -/
theorem acquire_after_shutdown_immediate :
    (∀ t : PoolState, (shutdown t).stop = true) ∧
    (∀ (t : PoolState) (ok : Bool), (acquire ok t).2.stop = t.stop) ∧
    (∀ (t : PoolState) (hand : Option Nat), (release t hand).stop = t.stop) ∧
    (∀ (s : PoolState) (ok : Bool), s.stop = true →
      acquire ok s = (AcquireOutcome.unavailable, s)) :=
  ⟨fun _ => rfl, fun t ok => stop_acquire ok t, stop_release,
   fun _ ok h => acquire_stopped ok h⟩

theorem acquire_after_shutdown_immediate_witness :
    acquire true (shutdown (mkPool 3)) =
      (AcquireOutcome.unavailable, shutdown (mkPool 3)) :=
  acquire_after_shutdown_immediate.2.2.2 (shutdown (mkPool 3)) true
    (acquire_after_shutdown_immediate.1 (mkPool 3))

/-- C6: construction clamps the capacity to at least 1 (so `mkPool 0` has 1
slot), allocates exactly the clamped number of empty slots, sets `available`
to the clamped capacity and `stopped` to `false`, and invokes the factory
zero times. -/
theorem construction_initial_state (n : Nat) :
    (mkPool n).slots = List.replicate (max n 1) ⟨false, false⟩ ∧
    (mkPool n).slots.length = max n 1 ∧
    (mkPool 0).slots.length = 1 ∧
    (mkPool n).haveResources = ((max n 1 : Nat) : Int) ∧
    (mkPool n).stop = false ∧
    (mkPool n).factoryCalls = 0 :=
  ⟨rfl, by simp [mkPool], by decide, rfl, rfl, rfl⟩

/-- C7: over every sequence of completed `acquire()`/`release()` calls on a
pool of capacity `n ≥ 1`, the factory is invoked at most `n` times in
total; and an `acquire()` that claims a slot whose instance is already
constructed reuses it and does not invoke the factory. -/
theorem factory_invocations_bounded (n : Nat) (s : PoolState)
    (hn : 1 ≤ n) (hr : Reachable n s) :
    s.factoryCalls ≤ n ∧
    (∀ i sl, s.slots.get? i = some sl → sl.present = true →
      (acquire true s).1 = AcquireOutcome.handle i →
      (acquire true s).2.factoryCalls = s.factoryCalls) := by
  obtain ⟨⟨h1, h2, h3⟩, hlen⟩ := reachable_inv hr
  constructor
  · have hle : s.slots.countP (·.present) ≤ s.slots.length :=
      List.countP_le_length (fun sl : Slot => sl.present)
    rw [hlen] at hle
    unfold presentCount at h3
    omega
  · intro i sl hget hpres hhandle
    by_cases hstop : s.stop
    · rw [acquire_stopped true hstop] at hhandle
      cases hhandle
    have hstop' : s.stop = false := by simpa using hstop
    by_cases hle' : s.haveResources ≤ 0
    · rw [acquire_blocked true hstop' hle'] at hhandle
      cases hhandle
    have hpos : 0 < s.haveResources := by omega
    cases hf : findFree s.slots with
    | none =>
      rw [acquire_nofree true hstop' hpos hf] at hhandle
      cases hhandle
    | some j =>
      have hgetD : s.slots.getD i default = sl := by
        simp [List.getD_eq_getElem?_getD, ← List.get?_eq_getElem?, hget]
      rw [acquire_found true hstop' hpos hf] at hhandle ⊢
      by_cases hp : (s.slots.getD j default).present
      · rw [if_pos hp]
      · rw [if_neg hp, if_pos rfl] at hhandle ⊢
        have hij : j = i := by
          have := hhandle
          simp at this
          exact this
        rw [hij, hgetD, hpres] at hp
        simp at hp

theorem factory_invocations_bounded_witness :
    (acquire true (release (acquire true (mkPool 3)).2 (some 0))).2.factoryCalls =
      (release (acquire true (mkPool 3)).2 (some 0)).factoryCalls :=
  (factory_invocations_bounded 3 (release (acquire true (mkPool 3)).2 (some 0))
      (by decide) (Reachable.rel (some 0) (Reachable.acq Reachable.init))).2
    0 ⟨true, false⟩ (by decide) (by decide) (by decide)

/-- C8: when the scan inside `acquire()` picks a slot whose instance is
absent and the factory invocation fails, the failure surfaces directly to
the caller (`thrown`), the slot table is unchanged (the slot stays empty
with `in_use` unset), and `available` is not decremented. -/
theorem factory_failure_state_consistent (s : PoolState) (i : Nat)
    (hstop : s.stop = false) (havail : 0 < s.haveResources)
    (hfind : findFree s.slots = some i)
    (hempty : (s.slots.getD i default).present = false) :
    (acquire false s).1 = AcquireOutcome.thrown ∧
    (acquire false s).2.slots = s.slots ∧
    (acquire false s).2.haveResources = s.haveResources := by
  rw [acquire_found false hstop havail hfind]
  rw [if_neg (by rw [hempty]; decide), if_neg (by decide)]
  exact ⟨rfl, rfl, rfl⟩

theorem factory_failure_state_consistent_witness :
    (acquire false (mkPool 1)).1 = AcquireOutcome.thrown ∧
    (acquire false (mkPool 1)).2.slots = (mkPool 1).slots ∧
    (acquire false (mkPool 1)).2.haveResources = (mkPool 1).haveResources :=
  factory_failure_state_consistent (mkPool 1) 0 (by decide) (by decide)
    (by decide) (by decide)

/-- C10: in every state reachable from construction by `acquire`,
`release` and `shutdown`, the counter `available` equals the number of
slots that are empty or have `in_use = false`; consequently, whenever
`acquire()` proceeds with `stopped = false` and `available > 0`, its index
scan finds a free slot and the returned handle is non-empty. -/
theorem available_eq_free_slot_count (n : Nat) (s : PoolState)
    (hr : Reachable n s) :
    s.haveResources = (freeCount s : Int) ∧
    (s.stop = false → 0 < s.haveResources →
      ∃ i, findFree s.slots = some i ∧
        (acquire true s).1 = AcquireOutcome.handle i) := by
  obtain ⟨⟨h1, h2, h3⟩, hlen⟩ := reachable_inv hr
  refine ⟨h1, ?_⟩
  intro hstop hpos
  have hfc : 0 < s.slots.countP isFree := by
    unfold freeCount at h1
    omega
  obtain ⟨i, hfind⟩ := findFree_exists hfc
  refine ⟨i, hfind, ?_⟩
  rw [acquire_found true hstop hpos hfind]
  by_cases hp : (s.slots.getD i default).present
  · rw [if_pos hp]
  · rw [if_neg hp, if_pos rfl]

theorem available_eq_free_slot_count_witness :
    (mkPool 2).haveResources = (freeCount (mkPool 2) : Int) ∧
    ∃ i, findFree (mkPool 2).slots = some i ∧
      (acquire true (mkPool 2)).1 = AcquireOutcome.handle i :=
  ⟨(available_eq_free_slot_count 2 (mkPool 2) Reachable.init).1,
   (available_eq_free_slot_count 2 (mkPool 2) Reachable.init).2 rfl (by decide)⟩

end ResourcePool
